import Mathlib

/-!
Verification of the CodeSense extension core (diagnostic parsing, response
extraction, prompt templating, repair pipeline) against its specification.

The JavaScript sources (`extension-original.js`, `extension-1.js` and the
unnamed extension module, called `part_000` below) are shallowly embedded
over `List Char`: JavaScript strings become character lists, the regex
`:(\d+):(\d+):\s([A-Z]\d{4}):\s(.+)` becomes a deterministic matcher
(every boundary of the pattern is disjoint from the preceding repetition
class, so no backtracking is reachable), `String.prototype.trim`,
`split("\n")`, `lastIndexOf`, `indexOf`, `replace` (including the `$`
substitution patterns of the replacement string) and `Array.prototype.slice`
with a negative index are modelled per the ECMAScript semantics, and the
`ollama.chat` model boundary is abstracted as a function
`String → Except String String` (exception = rejected promise).
-/

/-! ## JavaScript character classes and string primitives -/

/-- The ECMAScript `\s` character class (WhiteSpace ∪ LineTerminator),
which is also the set removed by `String.prototype.trim`. -/
def jsWs (c : Char) : Bool :=
  c == ' ' || c == '\t' || c == '\n' || c == '\r' || c == '\x0b' || c == '\x0c' ||
  c == '\u00a0' || c == '\u1680' || (0x2000 ≤ c.toNat && c.toNat ≤ 0x200a) ||
  c == '\u2028' || c == '\u2029' || c == '\u202f' || c == '\u205f' ||
  c == '\u3000' || c == '\ufeff'

/-- A character the ECMAScript regex `.` (without the `s` flag) matches:
anything but a LineTerminator. -/
def notLineTerm (c : Char) : Bool :=
  !(c == '\n' || c == '\r' || c == '\u2028' || c == '\u2029')

/-- Trailing-whitespace removal (the right half of `String.prototype.trim`). -/
def trimRightC : List Char → List Char
  | [] => []
  | c :: cs =>
    match trimRightC cs with
    | [] => if jsWs c then [] else [c]
    | r => c :: r

/-- `String.prototype.trim`: drop leading and trailing JS whitespace. -/
def trimC (l : List Char) : List Char :=
  trimRightC (l.dropWhile jsWs)

/-- `String.prototype.trim` on Lean strings, with JS whitespace semantics. -/
def jsTrimString (s : String) : String :=
  ⟨trimC s.toList⟩

/-- `String.prototype.startsWith` on character lists. -/
def startsWithL : List Char → List Char → Bool
  | [], _ => true
  | _ :: _, [] => false
  | p :: ps, c :: cs => p == c && startsWithL ps cs

/-- Whether the pattern occurs as a contiguous substring
(`String.prototype.includes`). -/
def containsSubL (pat : List Char) : List Char → Bool
  | [] => startsWithL pat []
  | c :: cs => startsWithL pat (c :: cs) || containsSubL pat cs

/-- `String.prototype.indexOf`: position of the first occurrence of the
pattern, `none` for JavaScript's `-1`. -/
def firstIndexOfL (pat : List Char) : List Char → Option Nat
  | [] => if startsWithL pat [] then some 0 else none
  | c :: cs =>
    if startsWithL pat (c :: cs) then some 0
    else (firstIndexOfL pat cs).map (· + 1)

/-- `String.prototype.lastIndexOf`: position of the last occurrence of the
pattern, `none` for JavaScript's `-1`. -/
def lastIndexOfL (pat : List Char) : List Char → Option Nat
  | [] => if startsWithL pat [] then some 0 else none
  | c :: cs =>
    match (lastIndexOfL pat cs).map (· + 1) with
    | some j => some j
    | none => if startsWithL pat (c :: cs) then some 0 else none

/-- `String.prototype.split("\n")`: split at every newline, keeping empty
fields (`"".split("\n")` is `[""]`, `"a\n".split("\n")` is `["a", ""]`). -/
def splitOnNl : List Char → List (List Char)
  | [] => [[]]
  | c :: t =>
    if c = '\n' then [] :: splitOnNl t
    else
      match splitOnNl t with
      | h :: r => (c :: h) :: r
      | [] => [[c]]

/-- `Array.prototype.join("\n")`. -/
def joinNl : List (List Char) → List Char
  | [] => []
  | [l] => l
  | l :: ls => l ++ '\n' :: joinNl ls

/-- `parseInt(d, 10)` on a string of decimal digits. -/
def digitsToNat (l : List Char) : Nat :=
  l.foldl (fun n c => 10 * n + (c.toNat - '0'.toNat)) 0

/-! ## ResponseExtractor (`extractLastOutput`) -/

/-- The literal marker token `"Output:"`. -/
def markerL : List Char := "Output:".toList

/-- `extractLastOutput` of the unnamed extension module (`part_000`,
lines 124-130): slice after the last `"Output:"` and trim; with no marker,
fall back to the whole response trimmed. -/
def extractLastOutputL (result : List Char) : List Char :=
  match lastIndexOfL markerL result with
  | none => trimC result
  | some i => trimC (result.drop (i + markerL.length))

/-- String wrapper for `extractLastOutputL`. -/
def extractLastOutput (result : String) : String :=
  ⟨extractLastOutputL result.toList⟩

/-- `extractLastOutput` of `extension-original.js` (lines 168-177): same
slicing, but the missing-marker fallback returns the empty string. -/
def extractLastOutputOrigL (result : List Char) : List Char :=
  match lastIndexOfL markerL result with
  | none => []
  | some i => trimC (result.drop (i + markerL.length))

/-- String wrapper for `extractLastOutputOrigL`. -/
def extractLastOutputOrig (result : String) : String :=
  ⟨extractLastOutputOrigL result.toList⟩

/-! ## Basic lemmas about the string primitives -/

theorem trimRightC_eq_nil_of_all_ws {l : List Char} (h : ∀ c ∈ l, jsWs c) :
    trimRightC l = [] := by
  induction l with
  | nil => rfl
  | cons c cs ih =>
    have hc : jsWs c := h c (List.mem_cons_self c cs)
    have : trimRightC cs = [] := ih fun x hx => h x (List.mem_cons_of_mem c hx)
    simp [trimRightC, this, hc]

theorem trimRightC_cons_of_ne {c : Char} {cs : List Char} (h : trimRightC cs ≠ []) :
    trimRightC (c :: cs) = c :: trimRightC cs := by
  cases hr : trimRightC cs with
  | nil => exact absurd hr h
  | cons r rs => simp [trimRightC, hr]

theorem trimRightC_append {xs ys : List Char} (h : trimRightC ys ≠ []) :
    trimRightC (xs ++ ys) = xs ++ trimRightC ys := by
  induction xs with
  | nil => rfl
  | cons x xs ih =>
    have hne : trimRightC (xs ++ ys) ≠ [] := by
      rw [ih]
      intro hcontra
      exact h (List.append_eq_nil.mp hcontra).2
    rw [List.cons_append, trimRightC_cons_of_ne hne, ih, List.cons_append]

/-- `trimRightC` yields a prefix of its argument. -/
theorem trimRightC_eq_take (l : List Char) : ∃ t, l = trimRightC l ++ t := by
  induction l with
  | nil => exact ⟨[], rfl⟩
  | cons c cs ih =>
    rcases ih with ⟨t, ht⟩
    cases hr : trimRightC cs with
    | nil =>
      by_cases hc : jsWs c
      · exact ⟨c :: cs, by simp [trimRightC, hr, hc]⟩
      · refine ⟨cs, ?_⟩
        simp [trimRightC, hr, hc]
    | cons r rs =>
      refine ⟨t, ?_⟩
      have : trimRightC (c :: cs) = c :: trimRightC cs := by
        simp [trimRightC, hr]
      rw [this, List.cons_append, ← ht]

theorem trimRightC_ne_nil {l : List Char} (h : ∃ c ∈ l, ¬ jsWs c) :
    trimRightC l ≠ [] := by
  induction l with
  | nil => rcases h with ⟨c, hc, -⟩; exact absurd hc (List.not_mem_nil c)
  | cons c cs ih =>
    rcases h with ⟨x, hx, hxw⟩
    rcases List.mem_cons.mp hx with rfl | hx'
    · cases hr : trimRightC cs with
      | nil => simp [trimRightC, hr, hxw]
      | cons r rs => simp [trimRightC, hr]
    · have : trimRightC cs ≠ [] := ih ⟨x, hx', hxw⟩
      cases hr : trimRightC cs with
      | nil => exact absurd hr this
      | cons r rs => simp [trimRightC, hr]

theorem trimRightC_idem (l : List Char) : trimRightC (trimRightC l) = trimRightC l := by
  induction l with
  | nil => rfl
  | cons c cs ih =>
    cases hr : trimRightC cs with
    | nil =>
      by_cases hc : jsWs c
      · simp [trimRightC, hr, hc]
      · simp [trimRightC, hr, hc]
    | cons r rs =>
      have h3 : trimRightC cs ≠ [] := by rw [hr]; simp
      have h1 : trimRightC (c :: cs) = c :: trimRightC cs := trimRightC_cons_of_ne h3
      rw [h1, trimRightC_cons_of_ne (by rw [ih]; exact h3), ih]

theorem dropWhile_jsWs_of_head_not {l : List Char} (h : ∀ x ∈ l.head?, ¬ jsWs x) :
    l.dropWhile jsWs = l := by
  cases l with
  | nil => rfl
  | cons c cs =>
    have : ¬ jsWs c := h c rfl
    simp [List.dropWhile, this]

/-- The head of a `dropWhile` survivor fails the predicate. -/
theorem head_dropWhile_not (p : Char → Bool) (l : List Char) :
    ∀ x ∈ (l.dropWhile p).head?, ¬ p x := by
  intro x hx
  induction l with
  | nil => simp [List.dropWhile] at hx
  | cons c cs ih =>
    by_cases hc : p c
    · exact ih (by simpa [List.dropWhile, hc] using hx)
    · simp [List.dropWhile, hc] at hx
      subst hx; exact fun h => hc h

/-- The trimmed-right part of a left-trimmed list still has a non-whitespace
head (when nonempty), because `trimRightC` only removes a suffix. -/
theorem head_trimC_not_ws (l : List Char) :
    ∀ x ∈ (trimC l).head?, ¬ jsWs x := by
  intro x hx
  unfold trimC at hx
  rcases trimRightC_eq_take (l.dropWhile jsWs) with ⟨t, ht⟩
  have : (trimRightC (l.dropWhile jsWs)).head? = (l.dropWhile jsWs).head? := by
    cases hr : trimRightC (l.dropWhile jsWs) with
    | nil => simp at hx; rw [hr] at hx; simp at hx
    | cons a as => rw [hr] at ht; rw [ht]; rfl
  rw [this] at hx
  exact head_dropWhile_not jsWs l x hx

theorem trimC_idem (l : List Char) : trimC (trimC l) = trimC l := by
  have h1 : (trimC l).dropWhile jsWs = trimC l :=
    dropWhile_jsWs_of_head_not (head_trimC_not_ws l)
  show trimRightC ((trimC l).dropWhile jsWs) = trimC l
  rw [h1]
  show trimRightC (trimRightC (l.dropWhile jsWs)) = trimC l
  rw [trimRightC_idem]
  rfl

/-! Occurrence-freeness is preserved by taking prefixes and suffixes,
hence by trimming. -/

theorem startsWithL_append {pat l t : List Char} (h : startsWithL pat l = true) :
    startsWithL pat (l ++ t) = true := by
  induction pat generalizing l with
  | nil => rfl
  | cons p ps ih =>
    cases l with
    | nil => simp [startsWithL] at h
    | cons c cs =>
      simp only [startsWithL, Bool.and_eq_true, beq_iff_eq] at h ⊢
      exact ⟨h.1, ih h.2⟩

theorem containsSubL_append_right {pat l t : List Char}
    (h : containsSubL pat l = true) : containsSubL pat (l ++ t) = true := by
  induction l with
  | nil =>
    simp only [containsSubL] at h
    have : startsWithL pat t = true := startsWithL_append (l := []) h
    cases t with
    | nil => simpa [containsSubL] using this
    | cons c cs => simp [containsSubL, this]
  | cons c cs ih =>
    simp only [List.cons_append, containsSubL, Bool.or_eq_true] at h ⊢
    rcases h with h | h
    · exact Or.inl (startsWithL_append h)
    · exact Or.inr (ih h)

theorem containsSubL_of_suffix {pat c cs} (h : containsSubL pat (c :: cs) = false) :
    containsSubL pat cs = false := by
  simp only [containsSubL, Bool.or_eq_false_iff] at h
  exact h.2

theorem containsSubL_dropWhile {pat : List Char} {p : Char → Bool} {l : List Char}
    (h : containsSubL pat l = false) : containsSubL pat (l.dropWhile p) = false := by
  induction l with
  | nil => simpa [List.dropWhile] using h
  | cons c cs ih =>
    by_cases hc : p c
    · simpa [List.dropWhile, hc] using ih (containsSubL_of_suffix h)
    · simpa [List.dropWhile, hc] using h

theorem containsSubL_of_prefix {pat l t : List Char}
    (h : containsSubL pat (l ++ t) = false) : containsSubL pat l = false := by
  cases hb : containsSubL pat l with
  | false => rfl
  | true => rw [containsSubL_append_right hb] at h; simp at h

theorem containsSubL_trimC {pat l} (h : containsSubL pat l = false) :
    containsSubL pat (trimC l) = false := by
  unfold trimC
  have h1 : containsSubL pat (l.dropWhile jsWs) = false := containsSubL_dropWhile h
  rcases trimRightC_eq_take (l.dropWhile jsWs) with ⟨t, ht⟩
  exact containsSubL_of_prefix (l := trimRightC (l.dropWhile jsWs)) (t := t)
    (by rw [← ht]; exact h1)

/-- `lastIndexOfL` finds nothing exactly when the pattern does not occur. -/
theorem lastIndexOfL_eq_none_iff (pat l : List Char) :
    lastIndexOfL pat l = none ↔ containsSubL pat l = false := by
  induction l with
  | nil =>
    by_cases h : startsWithL pat [] = true
    · simp [lastIndexOfL, containsSubL, h]
    · have h' : startsWithL pat [] = false := by simpa using h
      simp [lastIndexOfL, containsSubL, h']
  | cons c cs ih =>
    cases hrec : lastIndexOfL pat cs with
    | some j =>
      have hsub : containsSubL pat cs = true := by
        cases hb : containsSubL pat cs with
        | true => rfl
        | false => rw [ih.mpr hb] at hrec; cases hrec
      constructor
      · intro hcontra
        simp [lastIndexOfL, hrec] at hcontra
      · intro hfalse
        simp [containsSubL, hsub] at hfalse
    | none =>
      have hsub : containsSubL pat cs = false := ih.mp hrec
      by_cases hs : startsWithL pat (c :: cs) = true
      · constructor
        · intro hcontra; simp [lastIndexOfL, hrec, hs] at hcontra
        · intro hfalse; simp [containsSubL, hs] at hfalse
      · have hs' : startsWithL pat (c :: cs) = false := by simpa using hs
        constructor
        · intro; simp [containsSubL, hs', hsub]
        · intro; simp [lastIndexOfL, hrec, hs']

/-! ## DiagnosticParser (`createDiagnostics`, lines 45-73 of `part_000`,
lines 44-67 of `extension-1.js`; both files carry the identical
regex and severity classification) -/

/-- `vscode.DiagnosticSeverity`. -/
inductive DiagnosticSeverity where
  | error
  | warning
  | information
  | hint
deriving DecidableEq

/-- The four capture groups of `:(\d+):(\d+):\s([A-Z]\d{4}):\s(.+)`. -/
structure RegexCaps where
  lineNo : List Char
  colNo : List Char
  errorCode : List Char
  message : List Char
deriving DecidableEq

/-- Consume one expected literal character. -/
def expectChar (c : Char) : List Char → Option (List Char)
  | [] => none
  | x :: r => if x = c then some r else none

/-- Consume one character satisfying a class test, returning it. -/
def expectPred (p : Char → Bool) : List Char → Option (Char × List Char)
  | [] => none
  | x :: r => if p x then some (x, r) else none

/-- Consume a maximal nonempty run of `\d` digits (the greedy `(\d+)`;
the regex continues with `:`, which no digit matches, so backtracking
into the run can never succeed and maximal munch is faithful). -/
def expectDigits (l : List Char) : Option (List Char × List Char) :=
  let d := l.takeWhile Char.isDigit
  if d.isEmpty then none else some (d, l.dropWhile Char.isDigit)

/-- Attempt the anchored pattern `:(\d+):(\d+):\s([A-Z]\d{4}):\s(.+)` at the
start of the list. `(.+)` is final and greedy: it captures the maximal run
of non-LineTerminator characters and requires it nonempty. -/
def tryMatchAt (l : List Char) : Option RegexCaps :=
  match expectChar ':' l with
  | none => none
  | some r1 =>
  match expectDigits r1 with
  | none => none
  | some (d1, r2) =>
  match expectChar ':' r2 with
  | none => none
  | some r3 =>
  match expectDigits r3 with
  | none => none
  | some (d2, r4) =>
  match expectChar ':' r4 with
  | none => none
  | some r5 =>
  match expectPred jsWs r5 with
  | none => none
  | some (_, r6) =>
  match expectPred Char.isUpper r6 with
  | none => none
  | some (lc, r7) =>
  match expectPred Char.isDigit r7 with
  | none => none
  | some (a, r8) =>
  match expectPred Char.isDigit r8 with
  | none => none
  | some (b, r9) =>
  match expectPred Char.isDigit r9 with
  | none => none
  | some (c, r10) =>
  match expectPred Char.isDigit r10 with
  | none => none
  | some (d, r11) =>
  match expectChar ':' r11 with
  | none => none
  | some r12 =>
  match expectPred jsWs r12 with
  | none => none
  | some (_, r13) =>
    if (r13.takeWhile notLineTerm).isEmpty then none
    else some ⟨d1, d2, lc :: [a, b, c, d], r13.takeWhile notLineTerm⟩

/-- `String.prototype.match` with a non-global regex: try every start
position left to right and return the first successful match. -/
def findMatch : List Char → Option RegexCaps
  | [] => tryMatchAt []
  | c :: t =>
    match tryMatchAt (c :: t) with
    | some m => some m
    | none => findMatch t

/-- Severity classification from the captured classifier
(`errorCode.startsWith("F") || errorCode.startsWith("E")` → Error,
`startsWith("I")` → Information, otherwise Warning). -/
def severityOf (errorCode : List Char) : DiagnosticSeverity :=
  if startsWithL ['F'] errorCode || startsWithL ['E'] errorCode then
    DiagnosticSeverity.error
  else if startsWithL ['I'] errorCode then DiagnosticSeverity.information
  else DiagnosticSeverity.warning

/-- One parsed finding, with exactly the fields the source keeps
(`{line, column, message, severity}`; the classifier is consumed by the
severity test and not stored). -/
structure ParsedError where
  line : Nat
  column : Nat
  message : String
  severity : DiagnosticSeverity
deriving DecidableEq

/-- Per-line step of `createDiagnostics`: match the regex, then build the
record via `parseInt` on the numeric captures and `trim` on the message. -/
def parseLine (line : List Char) : Option ParsedError :=
  match findMatch line with
  | none => none
  | some caps =>
    some { line := digitsToNat caps.lineNo
           column := digitsToNat caps.colNo
           message := ⟨trimC caps.message⟩
           severity := severityOf caps.errorCode }

/-- The parsing stage of `createDiagnostics`:
`linterOutput.trim().split("\n")`, then map the regex over every line,
keeping only matches (`.filter(Boolean)`). -/
def parsePylint (rawOutput : String) : List ParsedError :=
  (splitOnNl (trimC rawOutput.toList)).filterMap parseLine

/-! ## Extractor lemmas -/

theorem extractLastOutputL_markerless {l : List Char}
    (h : containsSubL markerL l = false) : extractLastOutputL l = trimC l := by
  unfold extractLastOutputL
  rw [(lastIndexOfL_eq_none_iff _ _).mpr h]

theorem extractLastOutputOrigL_markerless {l : List Char}
    (h : containsSubL markerL l = false) : extractLastOutputOrigL l = [] := by
  unfold extractLastOutputOrigL
  rw [(lastIndexOfL_eq_none_iff _ _).mpr h]

/-! ## Claims about the response extractor -/

/-- Claim C1, as stated, is false for the `extension-original.js` variant of
`extractLastOutput`: on the markerless response `"abc"` it returns the empty
string, not the whole response trimmed (which is `"abc"`). -/
theorem claim1_counterexample :
    containsSubL markerL "abc".toList = false ∧
    extractLastOutputOrig "abc" = "" ∧
    jsTrimString "abc" = "abc" ∧
    extractLastOutputOrig "abc" ≠ jsTrimString "abc" := by
  refine ⟨by decide, by decide, by decide, by decide⟩

/-- Claim C1 (amended): for every model response containing no occurrence of
the literal marker token `"Output:"`, the `part_000` response extractor
returns the whole response trimmed of surrounding whitespace, while the
`extension-original.js` variant returns the empty string; neither fails
(both are total functions). -/
theorem claim1_amended (s : String)
    (h : containsSubL markerL s.toList = false) :
    extractLastOutput s = jsTrimString s ∧ extractLastOutputOrig s = "" := by
  constructor
  · show (⟨extractLastOutputL s.toList⟩ : String) = ⟨trimC s.toList⟩
    rw [extractLastOutputL_markerless h]
  · show (⟨extractLastOutputOrigL s.toList⟩ : String) = ""
    rw [extractLastOutputOrigL_markerless h]

/-- Witness for the amended claim C1 at the concrete markerless input
`"abc"`. -/
theorem claim1_witness :
    extractLastOutput "abc" = jsTrimString "abc" ∧
    extractLastOutputOrig "abc" = "" :=
  claim1_amended "abc" (by decide)

/-- Claim C6: with the marker token occurring more than once, both
implementations of the extractor slice after the last occurrence:
`extract "noise Output: A Output: B" = "B"`. -/
theorem claim6_extract_last_occurrence :
    extractLastOutput "noise Output: A Output: B" = "B" ∧
    extractLastOutputOrig "noise Output: A Output: B" = "B" := by
  refine ⟨by decide, by decide⟩

/-- Claim C9: the extractor is idempotent on markerless input, for both
implementations (trimming is idempotent; the original variant maps
markerless input to `""`, itself markerless and a fixed point). -/
theorem claim9_extract_idempotent (s : String)
    (h : containsSubL markerL s.toList = false) :
    extractLastOutput (extractLastOutput s) = extractLastOutput s ∧
    extractLastOutputOrig (extractLastOutputOrig s) = extractLastOutputOrig s := by
  constructor
  · show (⟨extractLastOutputL (extractLastOutputL s.toList)⟩ : String)
        = ⟨extractLastOutputL s.toList⟩
    rw [extractLastOutputL_markerless h,
        extractLastOutputL_markerless (containsSubL_trimC h), trimC_idem]
  · show (⟨extractLastOutputOrigL (extractLastOutputOrigL s.toList)⟩ : String)
        = ⟨extractLastOutputOrigL s.toList⟩
    rw [extractLastOutputOrigL_markerless h]
    rw [extractLastOutputOrigL_markerless (by decide)]

/-- Witness for claim C9 at the concrete markerless input `"abc"`. -/
theorem claim9_witness :
    extractLastOutput (extractLastOutput "abc") = extractLastOutput "abc" ∧
    extractLastOutputOrig (extractLastOutputOrig "abc")
      = extractLastOutputOrig "abc" :=
  claim9_extract_idempotent "abc" (by decide)

/-- Claim C8: parsing is total (a Lean function) and yields the empty record
sequence on every raw output none of whose lines matches, in particular on
the empty, the whitespace-only, and an arbitrary non-matching text. -/
theorem claim8_parser_robust :
    (∀ raw : String,
      (∀ ln ∈ splitOnNl (trimC raw.toList), parseLine ln = none) →
      parsePylint raw = []) ∧
    parsePylint "" = [] ∧
    parsePylint "   " = [] ∧
    parsePylint "random\nlines\n" = [] := by
  refine ⟨?_, by decide, by decide, by decide⟩
  intro raw h
  exact List.filterMap_eq_nil_iff.mpr h

/-- Witness for claim C8 at the concrete non-matching raw output `"xyz"`. -/
theorem claim8_witness : parsePylint "xyz" = [] :=
  claim8_parser_robust.1 "xyz" (by decide)

/-! ## PromptTemplate (`String.prototype.replace` with string pattern) -/

/-- The backquote character, written by code point. -/
def backquoteC : Char := Char.ofNat 96

/-- The apostrophe character, written by code point. -/
def aposC : Char := Char.ofNat 39

/-- ECMAScript `GetSubstitution` for a string (group-free) pattern: expand
`$$`, `$&` (the matched pattern), the dollar-backquote pair (text before the
match) and the dollar-apostrophe pair (text after the match) inside the
replacement text; any other `$` is literal (there are no capture groups, so
`$1`..`$99` and `$<name>` pass through unchanged). -/
def processDollar (before matched after : List Char) : List Char → List Char
  | [] => []
  | c :: r =>
    if c = '$' then
      match r with
      | [] => [c]
      | c2 :: r2 =>
        if c2 = '$' then '$' :: processDollar before matched after r2
        else if c2 = '&' then matched ++ processDollar before matched after r2
        else if c2 = backquoteC then before ++ processDollar before matched after r2
        else if c2 = aposC then after ++ processDollar before matched after r2
        else c :: c2 :: processDollar before matched after r2
    else c :: processDollar before matched after r

/-- `String.prototype.replace(pattern, replacement)` with string arguments:
substitute the first occurrence only, applying `processDollar` to the
replacement; with no occurrence the string is returned unchanged. -/
def replaceFirstJS (s pat repl : List Char) : List Char :=
  match firstIndexOfL pat s with
  | none => s
  | some i =>
    s.take i ++ processDollar (s.take i) pat (s.drop (i + pat.length)) repl
      ++ s.drop (i + pat.length)

/-- The `\x7bcode\x7d` slot placeholder. -/
def codeSlot : List Char := "\x7bcode\x7d".toList

/-- The `\x7blinterOutput\x7d` slot placeholder. -/
def lintSlot : List Char := "\x7blinterOutput\x7d".toList

/-- The template rendering performed at the head of `runOllamaPrompt`
(`part_000` lines 133-135, `extension-1.js` lines 118-120):
`prompt.replace("\x7bcode\x7d", code).replace("\x7blinterOutput\x7d", linterOutput)`. -/
def formatPromptL (prompt code linterOutput : List Char) : List Char :=
  replaceFirstJS (replaceFirstJS prompt codeSlot code) lintSlot linterOutput

/-- String wrapper for `formatPromptL`. -/
def formatPrompt (prompt code linterOutput : String) : String :=
  ⟨formatPromptL prompt.toList code.toList linterOutput.toList⟩

/-- Spec-side (§4.4) first-occurrence substitution: the binding is inserted
verbatim, with no escape processing. -/
def replaceFirstVerbatim (s pat repl : List Char) : List Char :=
  match firstIndexOfL pat s with
  | none => s
  | some i => s.take i ++ repl ++ s.drop (i + pat.length)

/-- Spec-side sequential two-slot rendering with verbatim insertion. -/
def renderVerbatim (prompt code linterOutput : List Char) : List Char :=
  replaceFirstVerbatim (replaceFirstVerbatim prompt codeSlot code)
    lintSlot linterOutput

/-! ## Prompt constants -/

/-- `LOGIC_FIX_PROMPT` of `part_000` (lines 89-108). -/
def LOGIC_FIX_PROMPT : String :=
  "[INST] <<SYS>>\nYou are a strict Python code fixer. The input Python code always contains at least one logical or syntax error. You must identify and correct these. Output only the corrected Python code, with NO extra text or formatting.\n<</SYS>>\n\n# Example:\nInput:\ndef is_even(n):\n    return n % 2 == 1\n\nOutput:\ndef is_even(n):\n    return n % 2 == 0\n\n---\n\nInput:\n\x7bcode\x7d\n\nOutput:\n[/INST]"

/-- `PYLINT_FIX_PROMPT` of `part_000` (lines 110-122). -/
def PYLINT_FIX_PROMPT : String :=
  "[INST] <<SYS>>\nYou are a code transformation agent. Your task is to fix syntax errors in the provided Python code based on the given Pylint output. Output only the corrected Python code with no explanations, no commentary, and no Markdown formatting.\n<</SYS>>\n\nPython code:\n\x7bcode\x7d\n\nPylint output:\n\x7blinterOutput\x7d\n\nInstructions:\n- Output only the corrected Python code.\n[/INST]"

/-- `LOGIC_FIX_PROMPT` of `extension-1.js` (lines 84-92). -/
def LOGIC_FIX_PROMPT_E1 : String :=
  "[INST] <<SYS>>\nYou are a strict Python code fixer. The input Python code always contains at least one logical or syntax error. You must identify and correct these. Output only the corrected Python code, with NO extra text or formatting.\n<</SYS>>\n\nInput:\n\x7bcode\x7d\n\nOutput:\n[/INST]"

/-- `SYNTAX_FIX_PROMPT` of `extension-1.js` (lines 94-102). -/
def SYNTAX_FIX_PROMPT : String :=
  "[INST] <<SYS>>\nYou are a code transformation agent. Your task is to fix syntax errors in the provided Python code. Output only the corrected Python code with no explanations or formatting.\n<</SYS>>\n\nInput:\n\x7bcode\x7d\n\nOutput:\n[/INST]"

/-- `PYLINT_FIX_PROMPT` of `extension-1.js` (lines 104-115). -/
def PYLINT_FIX_PROMPT_E1 : String :=
  "[INST] <<SYS>>\nYou are a code transformation agent. Your task is to fix remaining Pylint errors in the provided Python code based on the given Pylint output. Output only the corrected Python code with no explanations or formatting.\n<</SYS>>\n\nPython code:\n\x7bcode\x7d\n\nPylint output:\n\x7blinterOutput\x7d\n\nOutput:\n[/INST]"

/-! ## RepairOrchestrator (`runOllamaPrompt` + `generateFixedCodeHandler`)

The `ollama.chat` boundary is a parameter `chat : String → Except String String`
mapping the rendered prompt (sent as the single user message, temperature 0.1)
to the response's `message.content`, or to the error message of a rejected
call. -/

/-- Outcome of one repair-command invocation: the final text handed to the
presentation boundary, or the single user-facing error message. -/
inductive PipelineOutcome where
  | succeeded (finalText : String)
  | failed (message : String)
deriving DecidableEq

/-- `runOllamaPrompt` of `part_000` (lines 132-148): render the template,
invoke the model, trim the response and extract after the last marker;
wrap a failure with the descriptive prefix. -/
def runOllamaPromptM (chat : String → Except String String)
    (prompt code linterOutput : String) : Except String String :=
  match chat (formatPrompt prompt code linterOutput) with
  | Except.ok content => Except.ok (extractLastOutput (jsTrimString content))
  | Except.error e => Except.error ("Error running Ollama prompt: " ++ e)

/-- `generateFixedCodeHandler` of `part_000` (lines 166-188): stage 1
(logic fix) feeds the document text, stage 2 (pylint fix) feeds stage 1's
output plus the accumulated linter output; the try/catch surfaces any stage
failure as a single error message and produces no document. -/
def generateFixedCodeHandler (chat : String → Except String String)
    (docText linterOutput : String) : PipelineOutcome :=
  match runOllamaPromptM chat LOGIC_FIX_PROMPT docText "" with
  | Except.error e => PipelineOutcome.failed ("Error generating fixed code: " ++ e)
  | Except.ok code1 =>
    match runOllamaPromptM chat PYLINT_FIX_PROMPT code1 linterOutput with
    | Except.error e => PipelineOutcome.failed ("Error generating fixed code: " ++ e)
    | Except.ok code2 => PipelineOutcome.succeeded code2

/-- `generateFixedCodeHandler` of `part_000`, instrumented with the list of
prompts actually sent to the model boundary, in order (the control flow is
identical; the log only records each `chat` call). -/
def generateFixedCodeHandlerT (chat : String → Except String String)
    (docText linterOutput : String) : PipelineOutcome × List String :=
  let p1 := formatPrompt LOGIC_FIX_PROMPT docText ""
  match chat p1 with
  | Except.error e =>
    (PipelineOutcome.failed
      ("Error generating fixed code: " ++ ("Error running Ollama prompt: " ++ e)), [p1])
  | Except.ok content1 =>
    let code1 := extractLastOutput (jsTrimString content1)
    let p2 := formatPrompt PYLINT_FIX_PROMPT code1 linterOutput
    match chat p2 with
    | Except.error e =>
      (PipelineOutcome.failed
        ("Error generating fixed code: " ++ ("Error running Ollama prompt: " ++ e)), [p1, p2])
    | Except.ok content2 =>
      (PipelineOutcome.succeeded (extractLastOutput (jsTrimString content2)), [p1, p2])

/-- `runOllamaPrompt` of `extension-1.js` (lines 117-131): as in `part_000`
but the trimmed response is returned without marker extraction. -/
def runOllamaPrompt1 (chat : String → Except String String)
    (prompt code linterOutput : String) : Except String String :=
  match chat (formatPrompt prompt code linterOutput) with
  | Except.ok content => Except.ok (jsTrimString content)
  | Except.error e => Except.error ("Error running Ollama prompt: " ++ e)

/-- `generateFixedCodeHandler` of `extension-1.js` (lines 133-171): three
stages, each threading the previous stage's output as the `code` slot. -/
def generateFixedCodeHandler1 (chat : String → Except String String)
    (docText linterOutput : String) : PipelineOutcome :=
  match runOllamaPrompt1 chat LOGIC_FIX_PROMPT_E1 docText "" with
  | Except.error e => PipelineOutcome.failed ("Error generating fixed code: " ++ e)
  | Except.ok code1 =>
    match runOllamaPrompt1 chat SYNTAX_FIX_PROMPT code1 "" with
    | Except.error e => PipelineOutcome.failed ("Error generating fixed code: " ++ e)
    | Except.ok code2 =>
      match runOllamaPrompt1 chat PYLINT_FIX_PROMPT_E1 code2 linterOutput with
      | Except.error e => PipelineOutcome.failed ("Error generating fixed code: " ++ e)
      | Except.ok code3 => PipelineOutcome.succeeded code3

/-! ## `extension-original.js` response post-filter (lines 178-219) -/

/-- The token `"def"` looked for by the post-filter. -/
def defTok : List Char := "def".toList

/-- `Array.prototype.findIndex`: index of the first element satisfying the
predicate, `-1` when none does. -/
def findIndexJS {α : Type} (p : α → Bool) (l : List α) : Int :=
  match l.findIdx? p with
  | some n => (n : Int)
  | none => -1

/-- `Array.prototype.slice(start)` with a possibly negative start index:
a negative start counts from the end, clamped at zero. -/
def jsSliceFrom {α : Type} (l : List α) (i : Int) : List α :=
  if i < 0 then l.drop (Int.toNat ((l.length : Int) + i)) else l.drop i.toNat

/-- The response post-filter of `extension-original.js` `runOllamaPrompt`
(lines 207-215): trim the content, split into lines, find the first line
whose trimmed text starts with `"def"`, keep the lines from there on and
rejoin them. -/
def postFilterOrigL (content : List Char) : List Char :=
  let output := trimC content
  let lines := splitOnNl output
  let firstCodeLineIndex := findIndexJS (fun l => startsWithL defTok (trimC l)) lines
  joinNl (jsSliceFrom lines firstCodeLineIndex)

/-- String wrapper for `postFilterOrigL`. -/
def postFilterOrig (content : String) : String :=
  ⟨postFilterOrigL content.toList⟩

/-! ## Template lemmas and claims C7, C3, C4, C10 -/

theorem processDollar_no_dollar {before matched after repl : List Char}
    (h : '$' ∉ repl) : processDollar before matched after repl = repl := by
  induction repl with
  | nil => rfl
  | cons c r ih =>
    have hc : ¬ c = '$' := fun hh => h (hh ▸ List.mem_cons_self c r)
    have hr : '$' ∉ r := fun hh => h (List.mem_cons_of_mem c hh)
    rw [processDollar.eq_def]
    simp [hc, ih hr]

theorem replaceFirstJS_no_dollar {s pat repl : List Char} (h : '$' ∉ repl) :
    replaceFirstJS s pat repl = replaceFirstVerbatim s pat repl := by
  unfold replaceFirstJS replaceFirstVerbatim
  cases firstIndexOfL pat s with
  | none => rfl
  | some i => simp [processDollar_no_dollar h]

/-- Claim C7, as stated, is false: a binding is not always inserted verbatim,
because `String.prototype.replace` interprets `$` patterns in the replacement
string; substituting the binding `"$$"` into the code slot yields a single
`"$"`. -/
theorem claim7_counterexample :
    formatPrompt "a\x7bcode\x7db" "$$" "" = "a$b" ∧
    formatPrompt "a\x7bcode\x7db" "$$" "" ≠ "a$$b" := by
  refine ⟨by decide, by decide⟩

/-- Claim C7 (amended): rendering substitutes only the first literal
occurrence of each slot placeholder, code slot first and then the
linterOutput slot of the resulting text, and an absent `linterOutput`
binding substitutes the empty string rather than failing; the binding text
is inserted verbatim provided it contains no `"$"` character (otherwise the
JS replacement-pattern escapes apply). Both concrete equalities of the
claim hold. -/
theorem claim7_amended :
    (∀ prompt code lint : List Char, '$' ∉ code → '$' ∉ lint →
      formatPromptL prompt code lint = renderVerbatim prompt code lint) ∧
    formatPrompt "x=\x7bcode\x7d y=\x7blinterOutput\x7d" "1" "2" = "x=1 y=2" ∧
    formatPrompt "x=\x7bcode\x7d y=\x7blinterOutput\x7d" "1" "" = "x=1 y=" := by
  refine ⟨?_, by decide, by decide⟩
  intro prompt code lint hc hl
  unfold formatPromptL renderVerbatim
  rw [replaceFirstJS_no_dollar hc, replaceFirstJS_no_dollar hl]

/-- Witness for the amended claim C7 at concrete dollar-free bindings. -/
theorem claim7_witness :
    formatPromptL "p=\x7bcode\x7d".toList "v".toList "".toList
      = renderVerbatim "p=\x7bcode\x7d".toList "v".toList "".toList :=
  claim7_amended.1 "p=\x7bcode\x7d".toList "v".toList "".toList
    (by decide) (by decide)

deriving instance DecidableEq for Except

/-- Model behavior realizing claim C3's example stages: stage 1 uppercases
the submitted code `"ab"`, stage 2 appends `"!"`. -/
def chatUpperBang (p : String) : Except String String :=
  if p = formatPrompt LOGIC_FIX_PROMPT "ab" "" then Except.ok "AB"
  else if p = formatPrompt PYLINT_FIX_PROMPT "AB" "" then Except.ok "AB!"
  else Except.error "unexpected prompt"

/-- Claim C3: both repair pipelines run their stages strictly in declaration
order, each later stage's code slot receiving the previous stage's output
(not the original document text), and the final stage's output is the
pipeline's result; on the example stages S1 = uppercase, S2 = append `"!"`,
running on `"ab"` yields `"AB!"`. -/
theorem claim3_pipeline_sequencing :
    (∀ (chat : String → Except String String) (docText lint code1 code2 : String),
      runOllamaPromptM chat LOGIC_FIX_PROMPT docText "" = Except.ok code1 →
      runOllamaPromptM chat PYLINT_FIX_PROMPT code1 lint = Except.ok code2 →
      generateFixedCodeHandler chat docText lint
        = PipelineOutcome.succeeded code2) ∧
    (∀ (chat : String → Except String String) (docText lint c1 c2 c3 : String),
      runOllamaPrompt1 chat LOGIC_FIX_PROMPT_E1 docText "" = Except.ok c1 →
      runOllamaPrompt1 chat SYNTAX_FIX_PROMPT c1 "" = Except.ok c2 →
      runOllamaPrompt1 chat PYLINT_FIX_PROMPT_E1 c2 lint = Except.ok c3 →
      generateFixedCodeHandler1 chat docText lint
        = PipelineOutcome.succeeded c3) ∧
    generateFixedCodeHandler chatUpperBang "ab" ""
      = PipelineOutcome.succeeded "AB!" := by
  refine ⟨?_, ?_, ?_⟩
  · intro chat d l c1 c2 h1 h2
    simp [generateFixedCodeHandler, h1, h2]
  · intro chat d l c1 c2 c3 h1 h2 h3
    simp [generateFixedCodeHandler1, h1, h2, h3]
  · have h1 : runOllamaPromptM chatUpperBang LOGIC_FIX_PROMPT "ab" ""
        = Except.ok "AB" := by
      set_option maxRecDepth 100000 in decide
    have h2 : runOllamaPromptM chatUpperBang PYLINT_FIX_PROMPT "AB" ""
        = Except.ok "AB!" := by
      set_option maxRecDepth 100000 in decide
    simp [generateFixedCodeHandler, h1, h2]

/-- Witness for claim C3: the uppercase/append-bang stages on `"ab"`. -/
theorem claim3_witness :
    generateFixedCodeHandler chatUpperBang "ab" ""
      = PipelineOutcome.succeeded "AB!" :=
  claim3_pipeline_sequencing.1 chatUpperBang "ab" "" "AB" "AB!"
    (by set_option maxRecDepth 100000 in decide)
    (by set_option maxRecDepth 100000 in decide)

/-- The instrumented handler computes the same outcome as the plain one. -/
theorem generateFixedCodeHandlerT_fst (chat : String → Except String String)
    (d l : String) :
    (generateFixedCodeHandlerT chat d l).1 = generateFixedCodeHandler chat d l := by
  cases h1 : chat (formatPrompt LOGIC_FIX_PROMPT d "") with
  | error e =>
    simp [generateFixedCodeHandlerT, generateFixedCodeHandler, runOllamaPromptM, h1]
  | ok c1 =>
    cases h2 : chat (formatPrompt PYLINT_FIX_PROMPT
        (extractLastOutput (jsTrimString c1)) l) with
    | error e =>
      simp [generateFixedCodeHandlerT, generateFixedCodeHandler, runOllamaPromptM,
        h1, h2]
    | ok c2 =>
      simp [generateFixedCodeHandlerT, generateFixedCodeHandler, runOllamaPromptM,
        h1, h2]

/-- Claim C4: a failing model call at either stage makes the pipeline abort
immediately with a `failed` outcome carrying the triggering error's message:
exactly the prompts up to and including the failing stage are ever sent (so
nothing is retried and no later stage runs), and a `failed` run never equals
a `succeeded` one, i.e. no final or intermediate text is surfaced. -/
theorem claim4_failure_containment :
    (∀ (chat : String → Except String String) (docText lint e : String),
      chat (formatPrompt LOGIC_FIX_PROMPT docText "") = Except.error e →
      generateFixedCodeHandlerT chat docText lint =
        (PipelineOutcome.failed
          ("Error generating fixed code: " ++ ("Error running Ollama prompt: " ++ e)),
         [formatPrompt LOGIC_FIX_PROMPT docText ""])) ∧
    (∀ (chat : String → Except String String) (docText lint content1 e : String),
      chat (formatPrompt LOGIC_FIX_PROMPT docText "") = Except.ok content1 →
      chat (formatPrompt PYLINT_FIX_PROMPT
        (extractLastOutput (jsTrimString content1)) lint) = Except.error e →
      generateFixedCodeHandlerT chat docText lint =
        (PipelineOutcome.failed
          ("Error generating fixed code: " ++ ("Error running Ollama prompt: " ++ e)),
         [formatPrompt LOGIC_FIX_PROMPT docText "",
          formatPrompt PYLINT_FIX_PROMPT
            (extractLastOutput (jsTrimString content1)) lint])) ∧
    (∀ (chat : String → Except String String) (d l m t : String),
      generateFixedCodeHandler chat d l = PipelineOutcome.failed m →
      generateFixedCodeHandler chat d l ≠ PipelineOutcome.succeeded t) := by
  refine ⟨?_, ?_, ?_⟩
  · intro chat d l e h
    simp [generateFixedCodeHandlerT, h]
  · intro chat d l c1 e h1 h2
    simp [generateFixedCodeHandlerT, h1, h2]
  · intro chat d l m t hf hs
    rw [hf] at hs
    cases hs

/-- A model boundary whose every call fails. -/
def chatFailAlways : String → Except String String :=
  fun _ => Except.error "model unavailable"

/-- Witness for claim C4: with an always-failing model call, the pipeline
reports `failed` with the wrapped message after exactly one call. -/
theorem claim4_witness :
    generateFixedCodeHandlerT chatFailAlways "x" "" =
      (PipelineOutcome.failed
        ("Error generating fixed code: "
          ++ ("Error running Ollama prompt: " ++ "model unavailable")),
       [formatPrompt LOGIC_FIX_PROMPT "x" ""]) :=
  claim4_failure_containment.1 chatFailAlways "x" "" "model unavailable" rfl

/-! ## Claim C10: the `extension-original.js` post-filter fallback -/

theorem splitOnNl_ne_nil : ∀ l : List Char, splitOnNl l ≠ [] := by
  intro l
  induction l with
  | nil => simp [splitOnNl]
  | cons c t ih =>
    by_cases hc : c = '\n'
    · simp [splitOnNl, hc]
    · cases hs : splitOnNl t with
      | nil => exact absurd hs ih
      | cons h r => simp [splitOnNl, hc, hs]

theorem drop_length_pred {α : Type} :
    ∀ (l : List α) (d : α), l ≠ [] → l.drop (l.length - 1) = [l.getLastD d]
  | [x], _, _ => rfl
  | x :: y :: t, d, _ => by
    have ih := drop_length_pred (y :: t) x (by simp)
    show (x :: y :: t).drop ((y :: t).length) = [(y :: t).getLastD x]
    rw [show (y :: t).length = ((y :: t).length - 1) + 1 by simp,
      List.drop_succ_cons]
    exact ih

/-- Claim C10: the trimmed model response is post-filtered to the lines from
the first line whose trimmed text starts with `"def"` onward; when no line
qualifies, `findIndex` yields `-1` and `slice(-1)` keeps exactly the last
line, so the filter returns only that last line, discarding everything
before it. Concretely, `postFilterOrig "noise\nmore\nlast" = "last"`. -/
theorem claim10_postfilter :
    (∀ content : List Char,
      (∀ ln ∈ splitOnNl (trimC content), startsWithL defTok (trimC ln) = false) →
      findIndexJS (fun l => startsWithL defTok (trimC l))
          (splitOnNl (trimC content)) = -1 ∧
      postFilterOrigL content = (splitOnNl (trimC content)).getLastD []) ∧
    (∀ (content : List Char) (i : Nat),
      (splitOnNl (trimC content)).findIdx?
          (fun l => startsWithL defTok (trimC l)) = some i →
      postFilterOrigL content = joinNl ((splitOnNl (trimC content)).drop i)) ∧
    postFilterOrig "noise\nmore\nlast" = "last" := by
  refine ⟨?_, ?_, by decide⟩
  · intro content h
    have hnone : (splitOnNl (trimC content)).findIdx?
        (fun l => startsWithL defTok (trimC l)) = none :=
      List.findIdx?_eq_none_iff.mpr h
    have hidx : findIndexJS (fun l => startsWithL defTok (trimC l))
        (splitOnNl (trimC content)) = -1 := by
      unfold findIndexJS
      rw [hnone]
    refine ⟨hidx, ?_⟩
    show joinNl (jsSliceFrom (splitOnNl (trimC content))
        (findIndexJS (fun l => startsWithL defTok (trimC l))
          (splitOnNl (trimC content))))
      = (splitOnNl (trimC content)).getLastD []
    rw [hidx]
    have hne : splitOnNl (trimC content) ≠ [] := splitOnNl_ne_nil _
    have hlen : 1 ≤ (splitOnNl (trimC content)).length :=
      List.length_pos.mpr hne
    have hslice : jsSliceFrom (splitOnNl (trimC content)) (-1)
        = (splitOnNl (trimC content)).drop ((splitOnNl (trimC content)).length - 1) := by
      unfold jsSliceFrom
      rw [if_pos (by omega)]
      congr 1
      omega
    rw [hslice, drop_length_pred _ [] hne]
    rfl
  · intro content i h
    have hidx : findIndexJS (fun l => startsWithL defTok (trimC l))
        (splitOnNl (trimC content)) = (i : Int) := by
      unfold findIndexJS
      rw [h]
    show joinNl (jsSliceFrom (splitOnNl (trimC content))
        (findIndexJS (fun l => startsWithL defTok (trimC l))
          (splitOnNl (trimC content))))
      = joinNl ((splitOnNl (trimC content)).drop i)
    rw [hidx]
    unfold jsSliceFrom
    rw [if_neg (by omega)]
    simp

/-- Witness for claim C10 at the concrete def-free response `"abc"`. -/
theorem claim10_witness :
    findIndexJS (fun l => startsWithL defTok (trimC l))
        (splitOnNl (trimC "abc".toList)) = -1 ∧
    postFilterOrigL "abc".toList = (splitOnNl (trimC "abc".toList)).getLastD [] :=
  claim10_postfilter.1 "abc".toList (by decide)

/-! ## Characterizing the regex matcher -/

theorem expectChar_some_iff {c : Char} {l r : List Char} :
    expectChar c l = some r ↔ l = c :: r := by
  constructor
  · intro h
    cases l with
    | nil => simp [expectChar] at h
    | cons x xs =>
      unfold expectChar at h
      dsimp only at h
      by_cases hx : x = c
      · subst hx
        rw [if_pos rfl, Option.some.injEq] at h
        rw [h]
      · rw [if_neg hx] at h
        cases h
  · rintro rfl
    simp [expectChar]

theorem expectPred_some_iff {p : Char → Bool} {l : List Char} {x : Char}
    {r : List Char} :
    expectPred p l = some (x, r) ↔ l = x :: r ∧ p x = true := by
  constructor
  · intro h
    cases l with
    | nil => simp [expectPred] at h
    | cons y ys =>
      unfold expectPred at h
      dsimp only at h
      by_cases hy : p y
      · rw [if_pos hy, Option.some.injEq, Prod.mk.injEq] at h
        obtain ⟨rfl, rfl⟩ := h
        exact ⟨rfl, hy⟩
      · rw [if_neg hy] at h
        cases h
  · rintro ⟨rfl, hx⟩
    simp [expectPred, hx]

theorem expectDigits_some_iff {l d r : List Char} :
    expectDigits l = some (d, r) ↔
      d = l.takeWhile Char.isDigit ∧ r = l.dropWhile Char.isDigit ∧ d ≠ [] := by
  unfold expectDigits
  by_cases h : (l.takeWhile Char.isDigit).isEmpty = true
  · rw [if_pos h]
    rw [List.isEmpty_iff] at h
    constructor
    · intro hcontra; cases hcontra
    · rintro ⟨rfl, -, hne⟩
      exact absurd h hne
  · rw [if_neg h]
    have hne : l.takeWhile Char.isDigit ≠ [] := by
      intro hc
      exact h (by rw [hc]; rfl)
    constructor
    · intro hsome
      rw [Option.some.injEq, Prod.mk.injEq] at hsome
      refine ⟨hsome.1.symm, hsome.2.symm, fun hdnil => hne ?_⟩
      rw [hsome.1, hdnil]
    · rintro ⟨rfl, rfl, -⟩
      rfl

theorem takeWhile_append_stop {p : Char → Bool} {d : List Char} {y : Char}
    {ys : List Char} (hd : ∀ x ∈ d, p x = true) (hy : p y = false) :
    (d ++ y :: ys).takeWhile p = d ∧ (d ++ y :: ys).dropWhile p = y :: ys := by
  induction d with
  | nil => simp [List.takeWhile, List.dropWhile, hy]
  | cons a as ih =>
    have ha : p a = true := hd a (List.mem_cons_self a as)
    have has : ∀ x ∈ as, p x = true := fun x hx => hd x (List.mem_cons_of_mem a hx)
    obtain ⟨iht, ihd⟩ := ih has
    constructor
    · rw [List.cons_append, List.takeWhile_cons_of_pos ha, iht]
    · rw [List.cons_append, List.dropWhile_cons_of_pos ha, ihd]

theorem expectDigits_shape {d : List Char} {y : Char} {ys : List Char}
    (hd : ∀ x ∈ d, x.isDigit = true) (hne : d ≠ []) (hy : y.isDigit = false) :
    expectDigits (d ++ y :: ys) = some (d, y :: ys) := by
  obtain ⟨ht, hdr⟩ := takeWhile_append_stop hd hy
  exact expectDigits_some_iff.mpr ⟨ht.symm, hdr.symm, hne⟩

/-- The decomposition of a line exhibiting the matched pattern: a prefix,
the two digit captures, the two `\s` separators `w` and `w'`, the classifier
letter and its four digits, and the remainder `m`. -/
def diagShape (pre d1 d2 : List Char) (w L a b c d w' : Char)
    (m : List Char) : List Char :=
  pre ++ ':' :: (d1 ++ ':' :: (d2 ++ ':' :: w :: L :: a :: b :: c :: d :: ':' :: w' :: m))

theorem diagShape_cons (pre d1 d2 : List Char) (w L a b c d w' : Char)
    (m : List Char) (x : Char) :
    x :: diagShape pre d1 d2 w L a b c d w' m
      = diagShape (x :: pre) d1 d2 w L a b c d w' m := rfl

/-- The matcher succeeds at the head of a well-formed shape, capturing the
two digit runs, the five classifier characters, and the maximal
non-LineTerminator run of the remainder. -/
theorem tryMatchAt_shape {d1 d2 : List Char} {w L a b c d w' m0 : Char}
    {mrest : List Char}
    (hd1 : d1 ≠ []) (hd1d : ∀ x ∈ d1, x.isDigit = true)
    (hd2 : d2 ≠ []) (hd2d : ∀ x ∈ d2, x.isDigit = true)
    (hw : jsWs w = true) (hL : L.isUpper = true)
    (ha : a.isDigit = true) (hb : b.isDigit = true) (hc : c.isDigit = true)
    (hd' : d.isDigit = true) (hw' : jsWs w' = true)
    (hm0 : notLineTerm m0 = true) :
    tryMatchAt (diagShape [] d1 d2 w L a b c d w' (m0 :: mrest))
      = some ⟨d1, d2, L :: [a, b, c, d],
              (m0 :: mrest).takeWhile notLineTerm⟩ := by
  have e1 : expectChar ':' (diagShape [] d1 d2 w L a b c d w' (m0 :: mrest))
      = some (d1 ++ ':' :: (d2 ++ ':' :: w :: L :: a :: b :: c :: d :: ':' :: w' :: (m0 :: mrest))) := by
    apply expectChar_some_iff.mpr
    simp [diagShape]
  have e2 := @expectDigits_shape d1 ':'
    (d2 ++ ':' :: w :: L :: a :: b :: c :: d :: ':' :: w' :: (m0 :: mrest))
    hd1d hd1 (show (':' : Char).isDigit = false by decide)
  have e3 : expectChar ':'
      (':' :: (d2 ++ ':' :: w :: L :: a :: b :: c :: d :: ':' :: w' :: (m0 :: mrest)))
      = some (d2 ++ ':' :: w :: L :: a :: b :: c :: d :: ':' :: w' :: (m0 :: mrest)) :=
    expectChar_some_iff.mpr rfl
  have e4 := @expectDigits_shape d2 ':'
    (w :: L :: a :: b :: c :: d :: ':' :: w' :: (m0 :: mrest))
    hd2d hd2 (show (':' : Char).isDigit = false by decide)
  have hmsg : ((m0 :: mrest).takeWhile notLineTerm).isEmpty = false := by
    rw [List.takeWhile_cons_of_pos hm0]
    simp
  rw [tryMatchAt.eq_def, e1]
  dsimp only
  rw [e2]
  dsimp only
  rw [e3]
  dsimp only
  rw [e4]
  dsimp only
  rw [expectChar_some_iff.mpr rfl]
  dsimp only
  rw [expectPred_some_iff.mpr ⟨rfl, hw⟩]
  dsimp only
  rw [expectPred_some_iff.mpr ⟨rfl, hL⟩]
  dsimp only
  rw [expectPred_some_iff.mpr ⟨rfl, ha⟩]
  dsimp only
  rw [expectPred_some_iff.mpr ⟨rfl, hb⟩]
  dsimp only
  rw [expectPred_some_iff.mpr ⟨rfl, hc⟩]
  dsimp only
  rw [expectPred_some_iff.mpr ⟨rfl, hd'⟩]
  dsimp only
  rw [expectChar_some_iff.mpr rfl]
  dsimp only
  rw [expectPred_some_iff.mpr ⟨rfl, hw'⟩]
  dsimp only
  rw [if_neg (by simp [hmsg])]

/-- Inversion: a successful match at the head of a list exhibits the full
pattern decomposition. -/
theorem tryMatchAt_inv {l : List Char} {caps : RegexCaps}
    (h : tryMatchAt l = some caps) :
    ∃ (d1 d2 : List Char) (w lc a b c d w' m0 : Char) (mrest : List Char),
      l = diagShape [] d1 d2 w lc a b c d w' (m0 :: mrest) ∧
      d1 ≠ [] ∧ (∀ x ∈ d1, x.isDigit = true) ∧
      d2 ≠ [] ∧ (∀ x ∈ d2, x.isDigit = true) ∧
      jsWs w = true ∧ lc.isUpper = true ∧
      a.isDigit = true ∧ b.isDigit = true ∧ c.isDigit = true ∧ d.isDigit = true ∧
      jsWs w' = true ∧ notLineTerm m0 = true ∧
      caps = ⟨d1, d2, lc :: [a, b, c, d],
              (m0 :: mrest).takeWhile notLineTerm⟩ := by
  rw [tryMatchAt.eq_def] at h
  cases hE1 : expectChar ':' l with
  | none => rw [hE1] at h; exact absurd h (by simp)
  | some r1 =>
  rw [hE1] at h
  dsimp only at h
  cases hD1 : expectDigits r1 with
  | none => rw [hD1] at h; exact absurd h (by simp)
  | some pr1 =>
  obtain ⟨d1, r2⟩ := pr1
  rw [hD1] at h
  dsimp only at h
  cases hE2 : expectChar ':' r2 with
  | none => rw [hE2] at h; exact absurd h (by simp)
  | some r3 =>
  rw [hE2] at h
  dsimp only at h
  cases hD2 : expectDigits r3 with
  | none => rw [hD2] at h; exact absurd h (by simp)
  | some pr2 =>
  obtain ⟨d2, r4⟩ := pr2
  rw [hD2] at h
  dsimp only at h
  cases hE3 : expectChar ':' r4 with
  | none => rw [hE3] at h; exact absurd h (by simp)
  | some r5 =>
  rw [hE3] at h
  dsimp only at h
  cases hW : expectPred jsWs r5 with
  | none => rw [hW] at h; exact absurd h (by simp)
  | some prW =>
  obtain ⟨w, r6⟩ := prW
  rw [hW] at h
  dsimp only at h
  cases hU : expectPred Char.isUpper r6 with
  | none => rw [hU] at h; exact absurd h (by simp)
  | some prU =>
  obtain ⟨lc, r7⟩ := prU
  rw [hU] at h
  dsimp only at h
  cases hA : expectPred Char.isDigit r7 with
  | none => rw [hA] at h; exact absurd h (by simp)
  | some prA =>
  obtain ⟨a, r8⟩ := prA
  rw [hA] at h
  dsimp only at h
  cases hB : expectPred Char.isDigit r8 with
  | none => rw [hB] at h; exact absurd h (by simp)
  | some prB =>
  obtain ⟨b, r9⟩ := prB
  rw [hB] at h
  dsimp only at h
  cases hC : expectPred Char.isDigit r9 with
  | none => rw [hC] at h; exact absurd h (by simp)
  | some prC =>
  obtain ⟨c, r10⟩ := prC
  rw [hC] at h
  dsimp only at h
  cases hD : expectPred Char.isDigit r10 with
  | none => rw [hD] at h; exact absurd h (by simp)
  | some prD =>
  obtain ⟨d, r11⟩ := prD
  rw [hD] at h
  dsimp only at h
  cases hE4 : expectChar ':' r11 with
  | none => rw [hE4] at h; exact absurd h (by simp)
  | some r12 =>
  rw [hE4] at h
  dsimp only at h
  cases hW2 : expectPred jsWs r12 with
  | none => rw [hW2] at h; exact absurd h (by simp)
  | some prW2 =>
  obtain ⟨w', r13⟩ := prW2
  rw [hW2] at h
  dsimp only at h
  by_cases hEmp : (r13.takeWhile notLineTerm).isEmpty = true
  · rw [if_pos hEmp] at h
    cases h
  · rw [if_neg hEmp] at h
    rw [Option.some.injEq] at h
    have hl1 : l = ':' :: r1 := expectChar_some_iff.mp hE1
    obtain ⟨hd1t, hr2, hd1ne⟩ := expectDigits_some_iff.mp hD1
    have hr1 : r1 = d1 ++ r2 := by
      rw [hd1t, hr2]
      exact (List.takeWhile_append_dropWhile _ _).symm
    have hd1dig : ∀ x ∈ d1, x.isDigit = true := by
      intro x hx
      rw [hd1t] at hx
      exact List.mem_takeWhile_imp hx
    have hl2 : r2 = ':' :: r3 := expectChar_some_iff.mp hE2
    obtain ⟨hd2t, hr4, hd2ne⟩ := expectDigits_some_iff.mp hD2
    have hr3 : r3 = d2 ++ r4 := by
      rw [hd2t, hr4]
      exact (List.takeWhile_append_dropWhile _ _).symm
    have hd2dig : ∀ x ∈ d2, x.isDigit = true := by
      intro x hx
      rw [hd2t] at hx
      exact List.mem_takeWhile_imp hx
    have hl3 : r4 = ':' :: r5 := expectChar_some_iff.mp hE3
    obtain ⟨hr5, hwj⟩ := expectPred_some_iff.mp hW
    obtain ⟨hr6, hlu⟩ := expectPred_some_iff.mp hU
    obtain ⟨hr7, had⟩ := expectPred_some_iff.mp hA
    obtain ⟨hr8, hbd⟩ := expectPred_some_iff.mp hB
    obtain ⟨hr9, hcd⟩ := expectPred_some_iff.mp hC
    obtain ⟨hr10, hdd⟩ := expectPred_some_iff.mp hD
    have hr11 : r11 = ':' :: r12 := expectChar_some_iff.mp hE4
    obtain ⟨hr12, hw2j⟩ := expectPred_some_iff.mp hW2
    have hr13ne : r13.takeWhile notLineTerm ≠ [] := by
      intro hc
      exact hEmp (by rw [hc]; rfl)
    obtain ⟨m0, mrest, hm, hm0⟩ :
        ∃ m0 mrest, r13 = m0 :: mrest ∧ notLineTerm m0 = true := by
      cases hr13 : r13 with
      | nil => rw [hr13] at hr13ne; exact absurd rfl hr13ne
      | cons m0 mrest =>
        by_cases hm0 : notLineTerm m0 = true
        · exact ⟨m0, mrest, rfl, hm0⟩
        · rw [hr13] at hr13ne
          rw [List.takeWhile_cons_of_neg (by simpa using hm0)] at hr13ne
          exact absurd rfl hr13ne
    refine ⟨d1, d2, w, lc, a, b, c, d, w', m0, mrest, ?_, hd1ne, hd1dig,
      hd2ne, hd2dig, hwj, hlu, had, hbd, hcd, hdd, hw2j, hm0, ?_⟩
    · rw [hl1, hr1, hl2, hr3, hl3, hr5, hr6, hr7, hr8, hr9, hr10, hr11,
        hr12, hm]
      simp [diagShape]
    · rw [← h, hm]

/-- The matcher never succeeds at a non-colon head. -/
theorem tryMatchAt_not_colon {c : Char} {t : List Char} (h : ¬ c = ':') :
    tryMatchAt (c :: t) = none := by
  rw [tryMatchAt.eq_def]
  rw [show expectChar ':' (c :: t) = none by unfold expectChar; simp [h]]

/-- A successful match at any suffix makes `findMatch` succeed. -/
theorem findMatch_isSome_of_suffix {pre suf : List Char} {caps : RegexCaps}
    (h : tryMatchAt suf = some caps) : (findMatch (pre ++ suf)).isSome = true := by
  induction pre with
  | nil =>
    cases hs : suf with
    | nil => rw [hs] at h; rw [tryMatchAt.eq_def] at h; exact absurd h (by simp [expectChar])
    | cons c t =>
      rw [hs] at h
      simp only [List.nil_append, hs, findMatch, h]
      rfl
  | cons p pre' ih =>
    rw [List.cons_append]
    show (match tryMatchAt (p :: (pre' ++ suf)) with
          | some m => some m
          | none => findMatch (pre' ++ suf)).isSome = true
    cases hM : tryMatchAt (p :: (pre' ++ suf)) with
    | some m => rfl
    | none => exact ih

/-- Inversion for `findMatch`: a successful search splits the list at a
position where the anchored matcher succeeds. -/
theorem findMatch_inv {l : List Char} {caps : RegexCaps}
    (h : findMatch l = some caps) :
    ∃ pre suf, l = pre ++ suf ∧ tryMatchAt suf = some caps := by
  induction l with
  | nil =>
    rw [show findMatch [] = tryMatchAt [] from rfl, tryMatchAt.eq_def] at h
    exact absurd h (by simp [expectChar])
  | cons c t ih =>
    have hunfold : findMatch (c :: t)
        = match tryMatchAt (c :: t) with
          | some m => some m
          | none => findMatch t := rfl
    rw [hunfold] at h
    cases hM : tryMatchAt (c :: t) with
    | some m =>
      rw [hM] at h
      dsimp only at h
      rw [Option.some.injEq] at h
      exact ⟨[], c :: t, rfl, by rw [hM, h]⟩
    | none =>
      rw [hM] at h
      dsimp only at h
      obtain ⟨pre, suf, heq, hsuf⟩ := ih h
      exact ⟨c :: pre, suf, by rw [List.cons_append, heq], hsuf⟩

/-- `findMatch` skips a colon-free prefix. -/
theorem findMatch_skip {pre suf : List Char} (h : ∀ x ∈ pre, ¬ x = ':') :
    findMatch (pre ++ suf) = findMatch suf := by
  induction pre with
  | nil => rfl
  | cons p pre' ih =>
    rw [List.cons_append]
    show (match tryMatchAt (p :: (pre' ++ suf)) with
          | some m => some m
          | none => findMatch (pre' ++ suf)) = findMatch suf
    rw [tryMatchAt_not_colon (h p (List.mem_cons_self p pre'))]
    exact ih fun x hx => h x (List.mem_cons_of_mem p hx)

/-! ## Auxiliary lemmas for the parser claims -/

theorem dropWhile_append_cons {p : Char → Bool} {xs : List Char} {y : Char}
    {ys : List Char} (hy : p y = false) :
    (xs ++ y :: ys).dropWhile p = xs.dropWhile p ++ y :: ys := by
  induction xs with
  | nil => simp [List.dropWhile, hy]
  | cons x xs ih =>
    by_cases hx : p x
    · rw [List.cons_append, List.dropWhile_cons_of_pos hx,
        List.dropWhile_cons_of_pos hx, ih]
    · have hx' : p x = false := by simpa using hx
      rw [List.cons_append, List.dropWhile_cons_of_neg (by simp [hx']),
        List.dropWhile_cons_of_neg (by simp [hx']), List.cons_append]

theorem mem_of_mem_dropWhile {p : Char → Bool} {l : List Char} {x : Char}
    (h : x ∈ l.dropWhile p) : x ∈ l := by
  induction l with
  | nil => exact h
  | cons c cs ih =>
    by_cases hc : p c
    · rw [List.dropWhile_cons_of_pos hc] at h
      exact List.mem_cons_of_mem c (ih h)
    · rw [List.dropWhile_cons_of_neg (by simpa using hc)] at h
      exact h

theorem mem_of_mem_trimRightC {l : List Char} {x : Char}
    (h : x ∈ trimRightC l) : x ∈ l := by
  rcases trimRightC_eq_take l with ⟨t, ht⟩
  rw [ht]
  exact List.mem_append_left t h

theorem takeWhile_eq_self_of_all {p : Char → Bool} {l : List Char}
    (h : ∀ x ∈ l, p x = true) : l.takeWhile p = l := by
  induction l with
  | nil => rfl
  | cons c cs ih =>
    rw [List.takeWhile_cons_of_pos (h c (List.mem_cons_self c cs))]
    rw [ih fun x hx => h x (List.mem_cons_of_mem c hx)]

theorem dropWhile_eq_nil_of_all {p : Char → Bool} {l : List Char}
    (h : ∀ x ∈ l, p x = true) : l.dropWhile p = [] := by
  induction l with
  | nil => rfl
  | cons c cs ih =>
    rw [List.dropWhile_cons_of_pos (h c (List.mem_cons_self c cs))]
    exact ih fun x hx => h x (List.mem_cons_of_mem c hx)

theorem dropWhile_nil_of_trimRightC_nil {l : List Char}
    (h : trimRightC l = []) : l.dropWhile jsWs = [] := by
  induction l with
  | nil => rfl
  | cons c cs ih =>
    cases hr : trimRightC cs with
    | nil =>
      by_cases hc : jsWs c
      · rw [List.dropWhile_cons_of_pos hc]
        exact ih hr
      · exfalso
        simp [trimRightC, hr, hc] at h
    | cons r rs =>
      exfalso
      rw [trimRightC_cons_of_ne (by rw [hr]; simp)] at h
      cases h

theorem dropWhile_trimRightC (l : List Char) :
    (trimRightC l).dropWhile jsWs = trimRightC (l.dropWhile jsWs) := by
  induction l with
  | nil => rfl
  | cons c cs ih =>
    cases hr : trimRightC cs with
    | nil =>
      by_cases hc : jsWs c
      · have h1 : trimRightC (c :: cs) = [] := by simp [trimRightC, hr, hc]
        rw [h1, List.dropWhile_cons_of_pos hc,
          dropWhile_nil_of_trimRightC_nil hr]
        rfl
      · have h1 : trimRightC (c :: cs) = [c] := by simp [trimRightC, hr, hc]
        rw [h1, List.dropWhile_cons_of_neg (by simpa using hc),
          List.dropWhile_cons_of_neg (by simpa using hc), h1]
    | cons r rs =>
      have hne : trimRightC cs ≠ [] := by rw [hr]; simp
      have h1 : trimRightC (c :: cs) = c :: trimRightC cs :=
        trimRightC_cons_of_ne hne
      by_cases hc : jsWs c
      · rw [h1, List.dropWhile_cons_of_pos hc, List.dropWhile_cons_of_pos hc, ih]
      · rw [h1, List.dropWhile_cons_of_neg (by simpa using hc),
          List.dropWhile_cons_of_neg (by simpa using hc), h1]

theorem trimC_trimRightC (l : List Char) : trimC (trimRightC l) = trimC l := by
  show trimRightC ((trimRightC l).dropWhile jsWs) = trimC l
  rw [dropWhile_trimRightC]
  exact trimRightC_idem _

theorem splitOnNl_no_newline {l : List Char} (h : '\n' ∉ l) :
    splitOnNl l = [l] := by
  induction l with
  | nil => rfl
  | cons c t ih =>
    have hc : ¬ c = '\n' := fun hh => h (hh ▸ List.mem_cons_self c t)
    have ht : '\n' ∉ t := fun hh => h (List.mem_cons_of_mem c hh)
    simp [splitOnNl, hc, ih ht]

theorem severityOf_cons (L : Char) (rest : List Char) :
    severityOf (L :: rest)
      = if L = 'F' ∨ L = 'E' then DiagnosticSeverity.error
        else if L = 'I' then DiagnosticSeverity.information
        else DiagnosticSeverity.warning := by
  have hF' : startsWithL ['F'] (L :: rest) = ('F' == L) := by
    show ('F' == L && startsWithL [] rest) = ('F' == L)
    simp [startsWithL]
  have hE' : startsWithL ['E'] (L :: rest) = ('E' == L) := by
    show ('E' == L && startsWithL [] rest) = ('E' == L)
    simp [startsWithL]
  have hI' : startsWithL ['I'] (L :: rest) = ('I' == L) := by
    show ('I' == L && startsWithL [] rest) = ('I' == L)
    simp [startsWithL]
  unfold severityOf
  rw [hF', hE', hI']
  by_cases hF : L = 'F'
  · subst hF; decide
  · by_cases hE : L = 'E'
    · subst hE; decide
    · by_cases hI : L = 'I'
      · subst hI; decide
      · have h1 : ('F' == L) = false :=
          beq_eq_false_iff_ne.mpr fun hh => hF hh.symm
        have h2 : ('E' == L) = false :=
          beq_eq_false_iff_ne.mpr fun hh => hE hh.symm
        have h3 : ('I' == L) = false :=
          beq_eq_false_iff_ne.mpr fun hh => hI hh.symm
        simp [h1, h2, h3, hF, hE, hI]

theorem diagShape_as_append (pre d1 d2 : List Char) (w lc a b c d w' : Char)
    (m : List Char) :
    diagShape pre d1 d2 w lc a b c d w' m
      = (pre ++ ':' :: d1 ++ ':' :: d2 ++ [':', w, lc, a, b, c, d, ':', w']) ++ m := by
  simp [diagShape]

theorem diagShape_pre_append (pre d1 d2 : List Char) (w lc a b c d w' : Char)
    (m : List Char) :
    pre ++ diagShape [] d1 d2 w lc a b c d w' m
      = diagShape pre d1 d2 w lc a b c d w' m := by
  simp [diagShape]

/-! ## Claim C5: which lines produce a record -/

/-- The shape the amended claim C5 describes, as the code implements it:
somewhere in the line, a literal `:`, digits, `:`, digits, `:` and a single
whitespace character, one uppercase letter and exactly four digits, `:` and a
single whitespace character, then a non-empty remainder whose first character
is not a line terminator (the message). -/
def hasDiagShape (l : List Char) : Prop :=
  ∃ (pre d1 d2 : List Char) (w lc a b c d w' m0 : Char) (mrest : List Char),
    l = diagShape pre d1 d2 w lc a b c d w' (m0 :: mrest) ∧
    d1 ≠ [] ∧ (∀ x ∈ d1, x.isDigit = true) ∧
    d2 ≠ [] ∧ (∀ x ∈ d2, x.isDigit = true) ∧
    jsWs w = true ∧ lc.isUpper = true ∧
    a.isDigit = true ∧ b.isDigit = true ∧ c.isDigit = true ∧ d.isDigit = true ∧
    jsWs w' = true ∧ notLineTerm m0 = true

/-- The shape stated by claim C5 verbatim (spec-side): the separators after
the column number and after the classifier are the literal two-character
sequence `": "` (colon then space), and the remainder is only required
non-empty. Anchored version at the head of the list. -/
def claimShapeAt (l : List Char) : Bool :=
  match expectChar ':' l with
  | none => false
  | some r1 =>
  match expectDigits r1 with
  | none => false
  | some (_, r2) =>
  match expectChar ':' r2 with
  | none => false
  | some r3 =>
  match expectDigits r3 with
  | none => false
  | some (_, r4) =>
  match expectChar ':' r4 with
  | none => false
  | some r5 =>
  match expectChar ' ' r5 with
  | none => false
  | some r6 =>
  match expectPred Char.isUpper r6 with
  | none => false
  | some (_, r7) =>
  match expectPred Char.isDigit r7 with
  | none => false
  | some (_, r8) =>
  match expectPred Char.isDigit r8 with
  | none => false
  | some (_, r9) =>
  match expectPred Char.isDigit r9 with
  | none => false
  | some (_, r10) =>
  match expectPred Char.isDigit r10 with
  | none => false
  | some (_, r11) =>
  match expectChar ':' r11 with
  | none => false
  | some r12 =>
  match expectChar ' ' r12 with
  | none => false
  | some r13 => !r13.isEmpty

/-- Claim C5's verbatim shape, contained anywhere in the line. -/
def containsClaimShape : List Char → Bool
  | [] => claimShapeAt []
  | c :: t => claimShapeAt (c :: t) || containsClaimShape t

/-- Claim C5, as stated, is false in its only-if direction: the code's
separator is the regex class `\s`, not the literal `": "` the claim
requires, so the line `":1:2:\tE0001:\tmm"` (tab separators) produces a
diagnostic record although it nowhere contains the claimed colon-space
shape. -/
theorem claim5_counterexample :
    (parseLine ":1:2:\tE0001:\tmm".toList).isSome = true ∧
    containsClaimShape ":1:2:\tE0001:\tmm".toList = false := by
  refine ⟨by decide, by decide⟩

/-- Claim C5 (amended): for every input line, parse produces a diagnostic
record if and only if the line contains the shape: literal `:`, digits,
`:`, digits, `:` then one whitespace character, one uppercase letter
followed by exactly four digits, `:` then one whitespace character, then a
non-empty remainder as message whose first character is not a line
terminator; every line of any other shape produces no record and is
silently dropped. -/
theorem claim5_amended (line : List Char) :
    (∃ r, parseLine line = some r) ↔ hasDiagShape line := by
  constructor
  · rintro ⟨r, hr⟩
    unfold parseLine at hr
    cases hF : findMatch line with
    | none => rw [hF] at hr; cases hr
    | some caps =>
      obtain ⟨pre, suf, rfl, hsuf⟩ := findMatch_inv hF
      obtain ⟨d1, d2, w, lc, a, b, c, d, w', m0, mrest, hsufEq, hd1, hd1d,
        hd2, hd2d, hw, hlc, ha, hb, hc, hd', hw', hm0, -⟩ := tryMatchAt_inv hsuf
      refine ⟨pre, d1, d2, w, lc, a, b, c, d, w', m0, mrest, ?_, hd1, hd1d,
        hd2, hd2d, hw, hlc, ha, hb, hc, hd', hw', hm0⟩
      rw [hsufEq, diagShape_pre_append]
  · rintro ⟨pre, d1, d2, w, lc, a, b, c, d, w', m0, mrest, rfl, hd1, hd1d,
      hd2, hd2d, hw, hlc, ha, hb, hc, hd', hw', hm0⟩
    have hs := @tryMatchAt_shape d1 d2 w lc a b c d w' m0 mrest
      hd1 hd1d hd2 hd2d hw hlc ha hb hc hd' hw' hm0
    have hfind : (findMatch
        (diagShape pre d1 d2 w lc a b c d w' (m0 :: mrest))).isSome = true := by
      rw [← diagShape_pre_append]
      exact findMatch_isSome_of_suffix hs
    cases hF : findMatch (diagShape pre d1 d2 w lc a b c d w' (m0 :: mrest)) with
    | none => rw [hF] at hfind; cases hfind
    | some caps =>
      exact ⟨{ line := digitsToNat caps.lineNo, column := digitsToNat caps.colNo,
               message := ⟨trimC caps.message⟩,
               severity := severityOf caps.errorCode },
             by unfold parseLine; rw [hF]⟩

/-- Witness for the amended claim C5 at a concrete well-formed line. -/
theorem claim5_witness : ∃ r, parseLine "f.py:3:7: E0001: bad".toList = some r :=
  (claim5_amended "f.py:3:7: E0001: bad".toList).mpr
    ⟨"f.py".toList, ['3'], ['7'], ' ', 'E', '0', '0', '0', '1', ' ', 'b',
      "ad".toList, by decide, by decide, by decide, by decide, by decide,
      by decide, by decide, by decide, by decide, by decide, by decide,
      by decide⟩

/-! ## Claim C2: well-formed lines parse to exactly one record -/

theorem diagShape_no_newline {pre d1 d2 m : List Char} {w lc a b c d w' : Char}
    (hpre : ∀ x ∈ pre, notLineTerm x = true)
    (hd1 : ∀ x ∈ d1, x.isDigit = true) (hd2 : ∀ x ∈ d2, x.isDigit = true)
    (hw : ¬ w = '\n') (hlc : lc.isUpper = true)
    (ha : a.isDigit = true) (hb : b.isDigit = true) (hc : c.isDigit = true)
    (hd' : d.isDigit = true) (hw' : ¬ w' = '\n')
    (hm : ∀ x ∈ m, notLineTerm x = true) :
    '\n' ∉ diagShape pre d1 d2 w lc a b c d w' m := by
  intro hmem
  simp only [diagShape, List.mem_append, List.mem_cons] at hmem
  rcases hmem with h | h | h | h | h | h | h | h | h | h | h | h | h | h | h
  · exact absurd (hpre _ h) (by decide)
  · exact absurd h (by decide)
  · exact absurd (hd1 _ h) (by decide)
  · exact absurd h (by decide)
  · exact absurd (hd2 _ h) (by decide)
  · exact absurd h (by decide)
  · subst h; exact hw rfl
  · subst h; exact absurd hlc (by decide)
  · subst h; exact absurd ha (by decide)
  · subst h; exact absurd hb (by decide)
  · subst h; exact absurd hc (by decide)
  · subst h; exact absurd hd' (by decide)
  · exact absurd h (by decide)
  · subst h; exact hw' rfl
  · exact absurd (hm _ h) (by decide)

/-- Claim C2, as stated, is false: a lowercase classifier letter is still "a
letter classifier", and the claim then demands one record with Warning
severity, but the code's regex requires an uppercase letter and produces no
record at all for `"m.py:1:2: w0001: bad"`. -/
theorem claim2_counterexample : parsePylint "m.py:1:2: w0001: bad" = [] := by
  decide

/-- Claim C2 (amended): for every input line `path:L#:C#: LDDDD: M` in which
the path contains no colon and no line terminator, the classifier letter L is
uppercase, its four digits are digits, and the message M contains no line
terminator and at least one non-whitespace character, parse yields exactly
one diagnostic record whose line and column are the integers parsed from the
digit runs, whose message is M trimmed, and whose severity is Error when L
is E or F, Information when L is I, and Warning for any other letter; the
regex capture carries the classifier code L followed by the four digits. -/
theorem claim2_amended
    (P d1 d2 M : List Char) (L a b c d : Char)
    (hP : ∀ x ∈ P, ¬ x = ':' ∧ notLineTerm x = true)
    (hd1 : d1 ≠ []) (hd1d : ∀ x ∈ d1, x.isDigit = true)
    (hd2 : d2 ≠ []) (hd2d : ∀ x ∈ d2, x.isDigit = true)
    (hL : L.isUpper = true)
    (ha : a.isDigit = true) (hb : b.isDigit = true) (hc : c.isDigit = true)
    (hd' : d.isDigit = true)
    (hM : ∀ x ∈ M, notLineTerm x = true)
    (hMw : ∃ x ∈ M, jsWs x = false) :
    parsePylint ⟨diagShape P d1 d2 ' ' L a b c d ' ' M⟩
      = [{ line := digitsToNat d1, column := digitsToNat d2,
           message := ⟨trimC M⟩,
           severity := if L = 'F' ∨ L = 'E' then DiagnosticSeverity.error
             else if L = 'I' then DiagnosticSeverity.information
             else DiagnosticSeverity.warning }] ∧
    findMatch (trimC (diagShape P d1 d2 ' ' L a b c d ' ' M))
      = some ⟨d1, d2, L :: [a, b, c, d], trimRightC M⟩ := by
  have hMne : trimRightC M ≠ [] := trimRightC_ne_nil (by
    obtain ⟨x, hx, hxw⟩ := hMw
    exact ⟨x, hx, by simp [hxw]⟩)
  have hM' : ∀ x ∈ trimRightC M, notLineTerm x = true :=
    fun x hx => hM x (mem_of_mem_trimRightC hx)
  have hP' : ∀ x ∈ P.dropWhile jsWs, ¬ x = ':' ∧ notLineTerm x = true :=
    fun x hx => hP x (mem_of_mem_dropWhile hx)
  have hT : trimC (diagShape P d1 d2 ' ' L a b c d ' ' M)
      = diagShape (P.dropWhile jsWs) d1 d2 ' ' L a b c d ' ' (trimRightC M) := by
    show trimRightC ((diagShape P d1 d2 ' ' L a b c d ' ' M).dropWhile jsWs) = _
    have h1 : (diagShape P d1 d2 ' ' L a b c d ' ' M).dropWhile jsWs
        = diagShape (P.dropWhile jsWs) d1 d2 ' ' L a b c d ' ' M :=
      dropWhile_append_cons (by decide)
    rw [h1, diagShape_as_append, trimRightC_append hMne, ← diagShape_as_append]
  obtain ⟨m0, mrest, hm0eq⟩ : ∃ m0 mrest, trimRightC M = m0 :: mrest := by
    cases hcase : trimRightC M with
    | nil => exact absurd hcase hMne
    | cons m0 mrest => exact ⟨m0, mrest, rfl⟩
  have hm0 : notLineTerm m0 = true :=
    hM' m0 (by rw [hm0eq]; exact List.mem_cons_self _ _)
  have hfind : findMatch
      (diagShape (P.dropWhile jsWs) d1 d2 ' ' L a b c d ' ' (trimRightC M))
      = some ⟨d1, d2, L :: [a, b, c, d], trimRightC M⟩ := by
    rw [← diagShape_pre_append, findMatch_skip (fun x hx => (hP' x hx).1), hm0eq]
    have hta := @tryMatchAt_shape d1 d2 ' ' L a b c d ' ' m0 mrest
      hd1 hd1d hd2 hd2d (by decide) hL ha hb hc hd' (by decide) hm0
    have htake : (m0 :: mrest).takeWhile notLineTerm = m0 :: mrest := by
      apply takeWhile_eq_self_of_all
      intro x hx
      exact hM' x (by rw [hm0eq]; exact hx)
    rw [htake] at hta
    have hcons : diagShape [] d1 d2 ' ' L a b c d ' ' (m0 :: mrest)
        = ':' :: (d1 ++ ':' :: (d2 ++ ':' :: ' ' :: L :: a :: b :: c :: d
            :: ':' :: ' ' :: (m0 :: mrest))) := by
      simp [diagShape]
    rw [hcons] at hta
    rw [hcons]
    show (match tryMatchAt (':' :: (d1 ++ ':' :: (d2 ++ ':' :: ' ' :: L :: a
            :: b :: c :: d :: ':' :: ' ' :: (m0 :: mrest)))) with
          | some m => some m
          | none => findMatch (d1 ++ ':' :: (d2 ++ ':' :: ' ' :: L :: a :: b
              :: c :: d :: ':' :: ' ' :: (m0 :: mrest))))
        = some ⟨d1, d2, L :: [a, b, c, d], m0 :: mrest⟩
    rw [hta]
  have hnl : '\n' ∉ diagShape (P.dropWhile jsWs) d1 d2 ' ' L a b c d ' '
      (trimRightC M) :=
    diagShape_no_newline (fun x hx => (hP' x hx).2) hd1d hd2d (by decide) hL
      ha hb hc hd' (by decide) hM'
  have hline : parseLine
      (diagShape (P.dropWhile jsWs) d1 d2 ' ' L a b c d ' ' (trimRightC M))
      = some { line := digitsToNat d1, column := digitsToNat d2,
               message := ⟨trimC M⟩,
               severity := if L = 'F' ∨ L = 'E' then DiagnosticSeverity.error
                 else if L = 'I' then DiagnosticSeverity.information
                 else DiagnosticSeverity.warning } := by
    unfold parseLine
    rw [hfind]
    dsimp only
    rw [severityOf_cons, trimC_trimRightC]
  constructor
  · unfold parsePylint
    rw [show (String.mk (diagShape P d1 d2 ' ' L a b c d ' ' M)).toList
        = diagShape P d1 d2 ' ' L a b c d ' ' M from rfl]
    rw [hT, splitOnNl_no_newline hnl]
    simp [List.filterMap_cons, hline]
  · rw [hT]
    exact hfind

/-- Witness for the amended claim C2 at the concrete line
`"f.py:3:7: E0001: bad"`. -/
theorem claim2_witness :
    parsePylint ⟨diagShape "f.py".toList ['3'] ['7'] ' ' 'E' '0' '0' '0' '1'
        ' ' "bad".toList⟩
      = [{ line := 3, column := 7, message := "bad",
           severity := DiagnosticSeverity.error }] :=
  (claim2_amended "f.py".toList ['3'] ['7'] "bad".toList 'E' '0' '0' '0' '1'
    (by decide) (by decide) (by decide) (by decide) (by decide) (by decide)
    (by decide) (by decide) (by decide) (by decide) (by decide) (by decide)).1
